import Mathlib

/-!
Verification of `cargo-clean-recursive` (src/main.rs): a shallow embedding of
the traversal engine (`process_dir`) and the per-directory detection-and-clean
step (`detect_and_clean`), together with proofs of the specified properties.

Modelling conventions:
* A directory tree is a `Dir`: the filesystem answers the program consumes at a
  node (does `Cargo.toml` exist, does `target` exist / is it a directory,
  whether spawning `cargo` there fails and with which exit status it would
  return, whether `read_dir` succeeds) plus the list of child entries in
  listing order.  Each child entry records the outcome of the `e?` and
  `e.file_type()?` steps, the entry's basename (`OsName`, possibly not valid
  UTF-8), and — when it is a directory — its subtree.
* Side effects are recorded as a trace of `Event`s: `visit p` marks the
  detection-and-clean step running at node `p` (positions are lists of child
  indices from the root), `cleaning p` the "Cleaning ..." diagnostic,
  `invoke p c` an attempted spawn of the external tool with command `c`, and
  `warn p` the warning printed when the recursive call into child `p` failed.
* `anyhow` errors are the inductive `Err`; `with_context` wrappers become the
  `Err.cleaning` / `Err.reading` constructors.
-/

namespace CargoCleanRecursive

instance {ε α : Type} [DecidableEq ε] [DecidableEq α] : DecidableEq (Except ε α) := fun a b =>
  match a, b with
  | Except.ok x, Except.ok y =>
    if h : x = y then isTrue (by simp [h]) else isFalse (by simp [h])
  | Except.error x, Except.error y =>
    if h : x = y then isTrue (by simp [h]) else isFalse (by simp [h])
  | Except.ok _, Except.error _ => isFalse (by simp)
  | Except.error _, Except.ok _ => isFalse (by simp)

/-- A basename as returned by the OS: either valid UTF-8 (so `to_str` yields
`some`) or not (the `tag` only distinguishes distinct unconvertible names). -/
inductive OsName where
  | utf8 (s : String)
  | nonUtf8 (tag : Nat)
deriving DecidableEq, Repr

/-- `OsStr::to_str`: `some` exactly for valid UTF-8 names. -/
def OsName.toStr : OsName → Option String
  | .utf8 s => some s
  | .nonUtf8 _ => none

/-- The filesystem answers consumed at one directory node.  `spawnAll`,
`spawnDoc`, `spawnRelease` give the outcome of spawning the corresponding
`cargo clean` command with this directory as working directory: `.error ()`
models a spawn failure, `.ok code` a spawned process exiting with `code`
(which the program never inspects). -/
structure DirMeta where
  cargoToml : Bool
  targetExists : Bool
  targetIsDir : Bool
  spawnAll : Except Unit Int
  spawnDoc : Except Unit Int
  spawnRelease : Except Unit Int
  readDirOk : Bool
deriving DecidableEq, Repr

/-- One child entry as yielded by `read_dir`, excluding its subtree:
`entryErr` models the `e?` step failing, `fileTypeErr` the `e.file_type()?`
step failing, `file` a non-directory entry, `dirEntry` a directory entry. -/
inductive ChildMeta where
  | entryErr
  | fileTypeErr (name : OsName)
  | file (name : OsName)
  | dirEntry (name : OsName)
deriving DecidableEq, Repr

/-- A directory tree.  Every child entry is paired with a subtree; the subtree
is only meaningful (and only ever consulted) for `dirEntry` children. -/
inductive Dir where
  | mk (meta : DirMeta) (children : List (ChildMeta × Dir))

/-- `DeleteMode` from the source: `All` or `Partial { doc, release }`
(constructor named `part` here). -/
inductive DeleteMode where
  | all
  | part (doc release : Bool)
deriving DecidableEq, Repr

/-- `Config` from the source. -/
structure Config where
  exclude_dirs : List String
  del_mode : DeleteMode

/-- The three argument forms of the external tool. -/
inductive CleanCmd where
  | full
  | doc
  | release
deriving DecidableEq, Repr

/-- Observable side effects of a run, tagged with node positions (lists of
child indices below the root of the scan). -/
inductive Event where
  | visit (pos : List Nat)
  | cleaning (pos : List Nat)
  | invoke (pos : List Nat) (cmd : CleanCmd)
  | warn (pos : List Nat)
deriving DecidableEq, Repr

/-- The error values (`anyhow::Error` shapes) the program can produce. -/
inductive Err where
  | spawn
  | entryGet
  | fileType
  | readDir
  | cleaning (cause : Err)
  | reading (cause : Err)
deriving DecidableEq, Repr

/-- Rust's `str::ends_with(pat)` on valid UTF-8 strings: the pattern is a
suffix of the string (modelled on the character sequences). -/
def ends_with (s d : String) : Bool :=
  d.data.isSuffixOf s.data

/-- The exclusion test applied to a child's basename (src/main.rs lines
99–103): some member of `exclude_dirs` matches, where a member `d` matches iff
the name converts to UTF-8 and `ends_with d` holds (`map_or(false, …)`). -/
def excludedName (exclude : List String) (name : OsName) : Bool :=
  exclude.any (fun d => (name.toStr.map (fun s => ends_with s d)).getD false)

/-- `detect_and_clean` (src/main.rs lines 117–149), as a pure function from
the node's filesystem answers to a result and an event trace. -/
def detectAndClean (pos : List Nat) (meta : DirMeta) (mode : DeleteMode) :
    Except Err Unit × List Event :=
  if !meta.cargoToml then (Except.ok (), [])
  else if !meta.targetExists || !meta.targetIsDir then (Except.ok (), [])
  else
    match mode with
    | DeleteMode.all =>
      match meta.spawnAll with
      | Except.error _ =>
        (Except.error Err.spawn, [Event.cleaning pos, Event.invoke pos CleanCmd.full])
      | Except.ok _ =>
        (Except.ok (), [Event.cleaning pos, Event.invoke pos CleanCmd.full])
    | DeleteMode.part doc release =>
      if doc then
        match meta.spawnDoc with
        | Except.error _ =>
          (Except.error Err.spawn, [Event.cleaning pos, Event.invoke pos CleanCmd.doc])
        | Except.ok _ =>
          if release then
            match meta.spawnRelease with
            | Except.error _ =>
              (Except.error Err.spawn,
                [Event.cleaning pos, Event.invoke pos CleanCmd.doc,
                  Event.invoke pos CleanCmd.release])
            | Except.ok _ =>
              (Except.ok (),
                [Event.cleaning pos, Event.invoke pos CleanCmd.doc,
                  Event.invoke pos CleanCmd.release])
          else (Except.ok (), [Event.cleaning pos, Event.invoke pos CleanCmd.doc])
      else if release then
        match meta.spawnRelease with
        | Except.error _ =>
          (Except.error Err.spawn, [Event.cleaning pos, Event.invoke pos CleanCmd.release])
        | Except.ok _ =>
          (Except.ok (), [Event.cleaning pos, Event.invoke pos CleanCmd.release])
      else (Except.ok (), [Event.cleaning pos])

/-- The `for e in path.read_dir()` loop body of `process_dir` (src/main.rs
lines 93–112), abstracted over the recursive call `recur` (which receives the
child's subtree and position).  `i` is the index of the next entry.  A failing
`e?` or `e.file_type()?` aborts the loop with that error; a failing recursive
call contributes its trace plus a warning and the loop continues. -/
def runChildren (recur : Dir → List Nat → Except Err Unit × List Event)
    (cfg : Config) (pos : List Nat) :
    Nat → List (ChildMeta × Dir) → Except Err Unit × List Event
  | _, [] => (Except.ok (), [])
  | i, (c, sub) :: rest =>
    match c with
    | ChildMeta.entryErr => (Except.error Err.entryGet, [])
    | ChildMeta.fileTypeErr _ => (Except.error Err.fileType, [])
    | ChildMeta.file _ => runChildren recur cfg pos (i + 1) rest
    | ChildMeta.dirEntry name =>
      if excludedName cfg.exclude_dirs name then runChildren recur cfg pos (i + 1) rest
      else
        ((runChildren recur cfg pos (i + 1) rest).1,
          ((recur sub (pos ++ [i])).2 ++
              (match (recur sub (pos ++ [i])).1 with
                | Except.error _ => [Event.warn (pos ++ [i])]
                | Except.ok _ => [])) ++
            (runChildren recur cfg pos (i + 1) rest).2)

/-- The body of `process_dir` after the depth check (src/main.rs lines
91–114), abstracted over the recursive call. -/
def processNode (cfg : Config)
    (recur : Dir → List Nat → Except Err Unit × List Event) :
    Dir → List Nat → Except Err Unit × List Event
  | Dir.mk meta children, pos =>
    match detectAndClean pos meta cfg.del_mode with
    | (Except.error e, tr) => (Except.error (Err.cleaning e), Event.visit pos :: tr)
    | (Except.ok _, tr) =>
      if meta.readDirOk then
        ((runChildren recur cfg pos 0 children).1,
          Event.visit pos :: tr ++ (runChildren recur cfg pos 0 children).2)
      else (Except.error (Err.reading Err.readDir), Event.visit pos :: tr)

/-- `process_dir` (src/main.rs lines 86–115).  Recursion is on the depth
budget, exactly as in the source: depth `0` returns `Ok(())` at once, and
children are processed with budget `depth - 1`. -/
def processDir (cfg : Config) : Nat → Dir → List Nat → Except Err Unit × List Event
  | 0, _, _ => (Except.ok (), [])
  | n + 1, d, pos => processNode cfg (fun s q => processDir cfg n s q) d pos

/-- The deletion-mode computation of the configuration builder (src/main.rs
lines 48–51). -/
def buildDelMode : Bool → Bool → DeleteMode
  | false, false => DeleteMode.all
  | doc, release => DeleteMode.part doc release

/-- Modelled from the spec: a directory is a build root iff it directly
contains `Cargo.toml` and a `target` subdirectory (existing and a directory)
at the same level. -/
def buildRoot (m : DirMeta) : Bool :=
  m.cargoToml && m.targetExists && m.targetIsDir

/-- The entry and file-type steps of this child both succeed. -/
def metaOk : ChildMeta → Bool
  | ChildMeta.entryErr => false
  | ChildMeta.fileTypeErr _ => false
  | ChildMeta.file _ => true
  | ChildMeta.dirEntry _ => true

/-- All child entries of a listing are free of entry/file-type errors. -/
def childrenOk (l : List (ChildMeta × Dir)) : Bool :=
  l.all (fun c => metaOk c.1)

/-- The external-tool invocations recorded in a trace. -/
def invocations (tr : List Event) : List (List Nat × CleanCmd) :=
  tr.filterMap (fun e =>
    match e with
    | Event.invoke p c => some (p, c)
    | _ => none)

/-- Navigate a tree along a list of child indices, descending only through
directory entries. -/
def getSub : List Nat → Dir → Option Dir
  | [], d => some d
  | j :: q, Dir.mk _ children =>
    match children[j]? with
    | some (ChildMeta.dirEntry _, sub) => getSub q sub
    | _ => none

/-- The spawn outcome the node holds for a given command. -/
def spawnOf (m : DirMeta) : CleanCmd → Except Unit Int
  | CleanCmd.full => m.spawnAll
  | CleanCmd.doc => m.spawnDoc
  | CleanCmd.release => m.spawnRelease

/-- No spawn at this node fails. -/
def spawnOk (m : DirMeta) : Bool :=
  (match m.spawnAll with | Except.ok _ => true | Except.error _ => false) &&
  (match m.spawnDoc with | Except.ok _ => true | Except.error _ => false) &&
  (match m.spawnRelease with | Except.ok _ => true | Except.error _ => false)

mutual
/-- The whole tree is free of I/O and spawn failures. -/
def errorFree : Dir → Bool
  | Dir.mk meta children =>
    meta.readDirOk && spawnOk meta && errorFreeList children
/-- List version of `errorFree`. -/
def errorFreeList : List (ChildMeta × Dir) → Bool
  | [] => true
  | (c, sub) :: rest => metaOk c && errorFree sub && errorFreeList rest
end

mutual
/-- The whole tree is free of I/O failures (spawn outcomes unconstrained). -/
def ioClean : Dir → Bool
  | Dir.mk meta children => meta.readDirOk && ioCleanList children
/-- List version of `ioClean`. -/
def ioCleanList : List (ChildMeta × Dir) → Bool
  | [] => true
  | (c, sub) :: rest => metaOk c && ioClean sub && ioCleanList rest
end

mutual
/-- No directory anywhere in the tree satisfies the build-root detection
rule. -/
def noBuildRoot : Dir → Bool
  | Dir.mk meta children => !buildRoot meta && noBuildRootList children
/-- List version of `noBuildRoot`. -/
def noBuildRootList : List (ChildMeta × Dir) → Bool
  | [] => true
  | (_, sub) :: rest => noBuildRoot sub && noBuildRootList rest
end

/-- One scan from the root: position `[]`, as in the single top-level call. -/
def runScan (cfg : Config) (depth : Nat) (d : Dir) : Except Err Unit × List Event :=
  processDir cfg depth d []

/-- The error produced by a failing entry step (`e?` resp. `e.file_type()?`). -/
def errOfBad : ChildMeta → Err
  | ChildMeta.entryErr => Err.entryGet
  | _ => Err.fileType

/-- Fixture: a node with no `Cargo.toml`, no `target`, healthy I/O. -/
def plainMeta : DirMeta :=
  ⟨false, false, false, Except.ok 0, Except.ok 0, Except.ok 0, true⟩

/-- Fixture: a build root (descriptor and output dir present), healthy I/O. -/
def rootMeta : DirMeta :=
  ⟨true, true, true, Except.ok 0, Except.ok 0, Except.ok 0, true⟩

/-- Fixture: like `plainMeta` but `read_dir` fails. -/
def badReadMeta : DirMeta :=
  ⟨false, false, false, Except.ok 0, Except.ok 0, Except.ok 0, false⟩

/-- Fixture: a build root where every spawn of the external tool fails. -/
def badSpawnMeta : DirMeta :=
  ⟨true, true, true, Except.error (), Except.error (), Except.error (), true⟩

/-- Fixture: configuration with no exclusions, full-clean mode. -/
def cfgAll : Config := ⟨[], DeleteMode.all⟩

/-- Fixture: configuration excluding the single name "build". -/
def cfgExcl : Config := ⟨["build"], DeleteMode.all⟩

/-- Fixture: a childless healthy non-build-root directory. -/
def leafDir : Dir := Dir.mk plainMeta []

/-- Fixture: a childless build root. -/
def leafRoot : Dir := Dir.mk rootMeta []

/-- Fixture: a directory whose own listing fails. -/
def badReadDir : Dir := Dir.mk badReadMeta []

/-- Replace the exit codes (but not the spawn-success pattern) recorded in a
node's spawn outcomes. -/
def withCodes (m : DirMeta) (a b r : Int) : DirMeta :=
  ⟨m.cargoToml, m.targetExists, m.targetIsDir,
    m.spawnAll.map (fun _ => a), m.spawnDoc.map (fun _ => b),
    m.spawnRelease.map (fun _ => r), m.readDirOk⟩

/-- Fixture: children where the first child's subtree fails (its listing
errors) and the second child is healthy. -/
def mixedChildren : List (ChildMeta × Dir) :=
  [(ChildMeta.dirEntry (OsName.utf8 "a"), badReadDir),
    (ChildMeta.dirEntry (OsName.utf8 "b"), leafDir)]

/-- Fixture: children where the first child is healthy and the second entry
itself fails (`e?` errors). -/
def entryErrChildren : List (ChildMeta × Dir) :=
  [(ChildMeta.dirEntry (OsName.utf8 "a"), leafDir), (ChildMeta.entryErr, leafDir)]

/-- Fixture: one child directory named "build" containing a build root. -/
def exclChildren : List (ChildMeta × Dir) :=
  [(ChildMeta.dirEntry (OsName.utf8 "build"), leafRoot)]

/-- Fixture: one child directory whose basename is not valid UTF-8. -/
def nonUtf8Children : List (ChildMeta × Dir) :=
  [(ChildMeta.dirEntry (OsName.nonUtf8 0), leafDir)]

/-- Fixture: one healthy child directory named "a". -/
def depthChildren : List (ChildMeta × Dir) :=
  [(ChildMeta.dirEntry (OsName.utf8 "a"), leafDir)]

/-- Fixture: a tree with a `Cargo.toml`-but-no-`target` child: no build root
anywhere. -/
def noRootTree : Dir :=
  Dir.mk plainMeta
    [(ChildMeta.dirEntry (OsName.utf8 "a"),
      Dir.mk ⟨true, false, false, Except.ok 0, Except.ok 0, Except.ok 0, true⟩ [])]

/-! ### Basic equations -/

theorem processDir_zero (cfg : Config) (d : Dir) (pos : List Nat) :
    processDir cfg 0 d pos = (Except.ok (), []) := rfl

theorem processDir_succ (cfg : Config) (n : Nat) (d : Dir) (pos : List Nat) :
    processDir cfg (n + 1) d pos =
      processNode cfg (fun s q => processDir cfg n s q) d pos := rfl

theorem runChildren_nil (recur : Dir → List Nat → Except Err Unit × List Event)
    (cfg : Config) (pos : List Nat) (i : Nat) :
    runChildren recur cfg pos i [] = (Except.ok (), []) := rfl

theorem runChildren_entryErr (recur : Dir → List Nat → Except Err Unit × List Event)
    (cfg : Config) (pos : List Nat) (i : Nat) (sub : Dir)
    (rest : List (ChildMeta × Dir)) :
    runChildren recur cfg pos i ((ChildMeta.entryErr, sub) :: rest) =
      (Except.error Err.entryGet, []) := rfl

theorem runChildren_fileTypeErr (recur : Dir → List Nat → Except Err Unit × List Event)
    (cfg : Config) (pos : List Nat) (i : Nat) (nm : OsName) (sub : Dir)
    (rest : List (ChildMeta × Dir)) :
    runChildren recur cfg pos i ((ChildMeta.fileTypeErr nm, sub) :: rest) =
      (Except.error Err.fileType, []) := rfl

theorem runChildren_file (recur : Dir → List Nat → Except Err Unit × List Event)
    (cfg : Config) (pos : List Nat) (i : Nat) (nm : OsName) (sub : Dir)
    (rest : List (ChildMeta × Dir)) :
    runChildren recur cfg pos i ((ChildMeta.file nm, sub) :: rest) =
      runChildren recur cfg pos (i + 1) rest := rfl

theorem runChildren_dirEntry (recur : Dir → List Nat → Except Err Unit × List Event)
    (cfg : Config) (pos : List Nat) (i : Nat) (nm : OsName) (sub : Dir)
    (rest : List (ChildMeta × Dir)) :
    runChildren recur cfg pos i ((ChildMeta.dirEntry nm, sub) :: rest) =
      if excludedName cfg.exclude_dirs nm then runChildren recur cfg pos (i + 1) rest
      else
        ((runChildren recur cfg pos (i + 1) rest).1,
          ((recur sub (pos ++ [i])).2 ++
              (match (recur sub (pos ++ [i])).1 with
                | Except.error _ => [Event.warn (pos ++ [i])]
                | Except.ok _ => [])) ++
            (runChildren recur cfg pos (i + 1) rest).2) := rfl

theorem childrenOk_cons (c : ChildMeta) (sub : Dir) (rest : List (ChildMeta × Dir)) :
    childrenOk ((c, sub) :: rest) = (metaOk c && childrenOk rest) := by
  simp [childrenOk]

/-! ### `detect_and_clean` facts -/

theorem detectAndClean_events (pos : List Nat) (meta : DirMeta) (mode : DeleteMode) :
    ∀ e ∈ (detectAndClean pos meta mode).2,
      e = Event.cleaning pos ∨ ∃ c, e = Event.invoke pos c := by
  obtain ⟨ct, te, td, sa, sd, sr, rd⟩ := meta
  cases ct <;> cases te <;> cases td <;> cases sa <;> cases sd <;> cases sr <;>
    rcases mode with _ | ⟨doc, release⟩ <;>
    (try (cases doc <;> cases release)) <;> simp [detectAndClean]

theorem visit_not_in_detect (pos : List Nat) (meta : DirMeta) (mode : DeleteMode)
    (r : List Nat) : Event.visit r ∉ (detectAndClean pos meta mode).2 := by
  intro h
  rcases detectAndClean_events pos meta mode _ h with h1 | ⟨c, h1⟩ <;> simp at h1

theorem warn_not_in_detect (pos : List Nat) (meta : DirMeta) (mode : DeleteMode)
    (r : List Nat) : Event.warn r ∉ (detectAndClean pos meta mode).2 := by
  intro h
  rcases detectAndClean_events pos meta mode _ h with h1 | ⟨c, h1⟩ <;> simp at h1

set_option linter.unnecessarySeqFocus false in
theorem detectAndClean_ok_of_spawnOk (pos : List Nat) (meta : DirMeta)
    (mode : DeleteMode) (h : spawnOk meta = true) :
    (detectAndClean pos meta mode).1 = Except.ok () := by
  obtain ⟨ct, te, td, sa, sd, sr, rd⟩ := meta
  cases sa <;> cases sd <;> cases sr <;> simp [spawnOk] at h <;>
    cases ct <;> cases te <;> cases td <;>
    rcases mode with _ | ⟨doc, release⟩ <;>
    (try (cases doc <;> cases release)) <;> simp [detectAndClean]

theorem detectAndClean_not_buildRoot (pos : List Nat) (meta : DirMeta)
    (mode : DeleteMode) (h : buildRoot meta = false) :
    detectAndClean pos meta mode = (Except.ok (), []) := by
  obtain ⟨ct, te, td, sa, sd, sr, rd⟩ := meta
  cases ct <;> cases te <;> cases td <;> simp [buildRoot] at h <;>
    simp [detectAndClean]

theorem cleaning_mem_detect_iff (pos : List Nat) (meta : DirMeta) (mode : DeleteMode) :
    Event.cleaning pos ∈ (detectAndClean pos meta mode).2 ↔ buildRoot meta = true := by
  obtain ⟨ct, te, td, sa, sd, sr, rd⟩ := meta
  cases ct <;> cases te <;> cases td <;> cases sa <;> cases sd <;> cases sr <;>
    rcases mode with _ | ⟨doc, release⟩ <;>
    (try (cases doc <;> cases release)) <;> simp [detectAndClean, buildRoot]

/-! ### Loop (`runChildren`) facts -/

theorem runChildren_fst_ok_iff (recur : Dir → List Nat → Except Err Unit × List Event)
    (cfg : Config) (pos : List Nat) :
    ∀ (l : List (ChildMeta × Dir)) (i : Nat),
      ((runChildren recur cfg pos i l).1 = Except.ok () ↔ childrenOk l = true) := by
  intro l
  induction l with
  | nil => intro i; simp [runChildren, childrenOk]
  | cons hd tl ih =>
    intro i
    obtain ⟨c, sub⟩ := hd
    cases c with
    | entryErr => simp [runChildren_entryErr, childrenOk_cons, metaOk]
    | fileTypeErr nm => simp [runChildren_fileTypeErr, childrenOk_cons, metaOk]
    | file nm => simp [runChildren_file, childrenOk_cons, metaOk, ih]
    | dirEntry nm =>
      rw [runChildren_dirEntry]
      split
      · simp [childrenOk_cons, metaOk, ih]
      · simp [childrenOk_cons, metaOk, ih]

theorem runChildren_fst_indep (recur₁ recur₂ : Dir → List Nat → Except Err Unit × List Event)
    (cfg : Config) (pos : List Nat) :
    ∀ (l : List (ChildMeta × Dir)) (i : Nat),
      (runChildren recur₁ cfg pos i l).1 = (runChildren recur₂ cfg pos i l).1 := by
  intro l
  induction l with
  | nil => intro i; rfl
  | cons hd tl ih =>
    intro i
    obtain ⟨c, sub⟩ := hd
    cases c with
    | entryErr => rfl
    | fileTypeErr nm => rfl
    | file nm => exact ih (i + 1)
    | dirEntry nm =>
      rw [runChildren_dirEntry, runChildren_dirEntry]
      split
      · exact ih (i + 1)
      · simpa using ih (i + 1)

theorem runChildren_visit_mem (recur : Dir → List Nat → Except Err Unit × List Event)
    (cfg : Config) (pos : List Nat) :
    ∀ (l : List (ChildMeta × Dir)) (i : Nat) (r : List Nat), childrenOk l = true →
      (Event.visit r ∈ (runChildren recur cfg pos i l).2 ↔
        ∃ j nm sub, l[j]? = some (ChildMeta.dirEntry nm, sub) ∧
          excludedName cfg.exclude_dirs nm = false ∧
          Event.visit r ∈ (recur sub (pos ++ [i + j])).2) := by
  intro l
  induction l with
  | nil => intro i r _; simp [runChildren]
  | cons hd tl ih =>
    intro i r hok
    obtain ⟨c, sub⟩ := hd
    rw [childrenOk_cons] at hok
    obtain ⟨hc, htl⟩ := Bool.and_eq_true_iff.mp hok
    cases c with
    | entryErr => simp [metaOk] at hc
    | fileTypeErr nm => simp [metaOk] at hc
    | file nm =>
      rw [runChildren_file, ih (i + 1) r htl]
      constructor
      · rintro ⟨j, nm', sub', hj, hex, hmem⟩
        refine ⟨j + 1, nm', sub', by simpa using hj, hex, ?_⟩
        simpa [Nat.add_assoc, Nat.add_comm 1 j] using hmem
      · rintro ⟨j, nm', sub', hj, hex, hmem⟩
        cases j with
        | zero => simp at hj
        | succ j =>
          refine ⟨j, nm', sub', by simpa using hj, hex, ?_⟩
          simpa [Nat.add_assoc, Nat.add_comm 1 j] using hmem
    | dirEntry nm =>
      rw [runChildren_dirEntry]
      split
      · rename_i hexcl
        rw [ih (i + 1) r htl]
        constructor
        · rintro ⟨j, nm', sub', hj, hex, hmem⟩
          refine ⟨j + 1, nm', sub', by simpa using hj, hex, ?_⟩
          simpa [Nat.add_assoc, Nat.add_comm 1 j] using hmem
        · rintro ⟨j, nm', sub', hj, hex, hmem⟩
          cases j with
          | zero =>
            simp at hj
            obtain ⟨h1, h2⟩ := hj
            subst h1 h2
            rw [hexcl] at hex
            cases hex
          | succ j =>
            refine ⟨j, nm', sub', by simpa using hj, hex, ?_⟩
            simpa [Nat.add_assoc, Nat.add_comm 1 j] using hmem
      · rename_i hexcl
        rw [Bool.not_eq_true] at hexcl
        simp only [List.mem_append]
        constructor
        · rintro ((hmem | hwarn) | htail)
          · exact ⟨0, nm, sub, by simp, hexcl, by simpa using hmem⟩
          · exfalso
            revert hwarn
            split <;> simp
          · obtain ⟨j, nm', sub', hj, hex, hmem⟩ := (ih (i + 1) r htl).mp htail
            refine ⟨j + 1, nm', sub', by simpa using hj, hex, ?_⟩
            simpa [Nat.add_assoc, Nat.add_comm 1 j] using hmem
        · rintro ⟨j, nm', sub', hj, hex, hmem⟩
          cases j with
          | zero =>
            simp at hj
            obtain ⟨h1, h2⟩ := hj
            subst h1 h2
            exact Or.inl (Or.inl (by simpa using hmem))
          | succ j =>
            refine Or.inr ((ih (i + 1) r htl).mpr ⟨j, nm', sub', by simpa using hj, hex, ?_⟩)
            simpa [Nat.add_assoc, Nat.add_comm 1 j] using hmem

theorem runChildren_mem_of_child (recur : Dir → List Nat → Except Err Unit × List Event)
    (cfg : Config) (pos : List Nat) :
    ∀ (l : List (ChildMeta × Dir)) (i k : Nat) (nm : OsName) (sub : Dir) (ev : Event),
      (∀ m, m < k → ∀ cm : ChildMeta × Dir, l[m]? = some cm → metaOk cm.1 = true) →
      l[k]? = some (ChildMeta.dirEntry nm, sub) →
      excludedName cfg.exclude_dirs nm = false →
      ev ∈ (recur sub (pos ++ [i + k])).2 →
      ev ∈ (runChildren recur cfg pos i l).2 := by
  intro l
  induction l with
  | nil => intro i k nm sub ev _ hk; simp at hk
  | cons hd tl ih =>
    intro i k nm sub ev hpre hk hex hmem
    obtain ⟨c, subhd⟩ := hd
    cases k with
    | zero =>
      simp at hk
      obtain ⟨h1, h2⟩ := hk
      subst h1 h2
      rw [runChildren_dirEntry, if_neg (by simp [hex])]
      simp only [List.mem_append]
      exact Or.inl (Or.inl (by simpa using hmem))
    | succ k =>
      have hhd : metaOk c = true := hpre 0 (Nat.succ_pos k) (c, subhd) (by simp)
      have hpre' : ∀ m, m < k → ∀ cm : ChildMeta × Dir, tl[m]? = some cm → metaOk cm.1 = true := by
        intro m hm cm hcm
        exact hpre (m + 1) (Nat.succ_lt_succ hm) cm (by simpa using hcm)
      have hk' : tl[k]? = some (ChildMeta.dirEntry nm, sub) := by simpa using hk
      have hmem' : ev ∈ (recur sub (pos ++ [i + 1 + k])).2 := by
        simpa [Nat.add_assoc, Nat.add_comm 1 k] using hmem
      cases c with
      | entryErr => simp [metaOk] at hhd
      | fileTypeErr nm' => simp [metaOk] at hhd
      | file nm' =>
        rw [runChildren_file]
        exact ih (i + 1) k nm sub ev hpre' hk' hex hmem'
      | dirEntry nm' =>
        rw [runChildren_dirEntry]
        split
        · exact ih (i + 1) k nm sub ev hpre' hk' hex hmem'
        · simp only [List.mem_append]
          exact Or.inr (ih (i + 1) k nm sub ev hpre' hk' hex hmem')

theorem runChildren_warn_mem (recur : Dir → List Nat → Except Err Unit × List Event)
    (cfg : Config) (pos : List Nat) :
    ∀ (l : List (ChildMeta × Dir)) (i k : Nat) (nm : OsName) (sub : Dir) (e : Err),
      (∀ m, m < k → ∀ cm : ChildMeta × Dir, l[m]? = some cm → metaOk cm.1 = true) →
      l[k]? = some (ChildMeta.dirEntry nm, sub) →
      excludedName cfg.exclude_dirs nm = false →
      (recur sub (pos ++ [i + k])).1 = Except.error e →
      Event.warn (pos ++ [i + k]) ∈ (runChildren recur cfg pos i l).2 := by
  intro l
  induction l with
  | nil => intro i k nm sub e _ hk; simp at hk
  | cons hd tl ih =>
    intro i k nm sub e hpre hk hex herr
    obtain ⟨c, subhd⟩ := hd
    cases k with
    | zero =>
      simp at hk
      obtain ⟨h1, h2⟩ := hk
      subst h1 h2
      simp only [Nat.add_zero] at herr ⊢
      rw [runChildren_dirEntry, if_neg (by simp [hex])]
      simp only [List.mem_append]
      refine Or.inl (Or.inr ?_)
      rw [herr]
      simp
    | succ k =>
      have hhd : metaOk c = true := hpre 0 (Nat.succ_pos k) (c, subhd) (by simp)
      have hpre' : ∀ m, m < k → ∀ cm : ChildMeta × Dir, tl[m]? = some cm → metaOk cm.1 = true := by
        intro m hm cm hcm
        exact hpre (m + 1) (Nat.succ_lt_succ hm) cm (by simpa using hcm)
      have hk' : tl[k]? = some (ChildMeta.dirEntry nm, sub) := by simpa using hk
      have herr' : (recur sub (pos ++ [i + 1 + k])).1 = Except.error e := by
        simpa [Nat.add_assoc, Nat.add_comm 1 k] using herr
      have hgoal := ih (i + 1) k nm sub e hpre' hk' hex herr'
      have hposeq : pos ++ [i + 1 + k] = pos ++ [i + (k + 1)] := by
        simp [Nat.add_assoc, Nat.add_comm 1 k]
      rw [hposeq] at hgoal
      cases c with
      | entryErr => simp [metaOk] at hhd
      | fileTypeErr nm' => simp [metaOk] at hhd
      | file nm' => rw [runChildren_file]; exact hgoal
      | dirEntry nm' =>
        rw [runChildren_dirEntry]
        split
        · exact hgoal
        · simp only [List.mem_append]
          exact Or.inr hgoal

theorem runChildren_firstBad (recur : Dir → List Nat → Except Err Unit × List Event)
    (cfg : Config) (pos : List Nat) :
    ∀ (l : List (ChildMeta × Dir)) (i k : Nat) (c : ChildMeta) (sub : Dir),
      (∀ m, m < k → ∀ cm : ChildMeta × Dir, l[m]? = some cm → metaOk cm.1 = true) →
      l[k]? = some (c, sub) → metaOk c = false →
      (runChildren recur cfg pos i l).1 = Except.error (errOfBad c) := by
  intro l
  induction l with
  | nil => intro i k c sub _ hk; simp at hk
  | cons hd tl ih =>
    intro i k c sub hpre hk hbad
    obtain ⟨chd, subhd⟩ := hd
    cases k with
    | zero =>
      simp at hk
      obtain ⟨h1, h2⟩ := hk
      cases chd with
      | entryErr => subst h1; rw [runChildren_entryErr]; rfl
      | fileTypeErr nm' => subst h1; rw [runChildren_fileTypeErr]; rfl
      | file nm' => subst h1; simp [metaOk] at hbad
      | dirEntry nm' => subst h1; simp [metaOk] at hbad
    | succ k =>
      have hhd : metaOk chd = true := hpre 0 (Nat.succ_pos k) (chd, subhd) (by simp)
      have hpre' : ∀ m, m < k → ∀ cm : ChildMeta × Dir, tl[m]? = some cm → metaOk cm.1 = true := by
        intro m hm cm hcm
        exact hpre (m + 1) (Nat.succ_lt_succ hm) cm (by simpa using hcm)
      have hk' : tl[k]? = some (c, sub) := by simpa using hk
      cases chd with
      | entryErr => simp [metaOk] at hhd
      | fileTypeErr nm' => simp [metaOk] at hhd
      | file nm' => rw [runChildren_file]; exact ih (i + 1) k c sub hpre' hk' hbad
      | dirEntry nm' =>
        rw [runChildren_dirEntry]
        split
        · exact ih (i + 1) k c sub hpre' hk' hbad
        · simpa using ih (i + 1) k c sub hpre' hk' hbad

/-! ### `process_dir` node facts -/

theorem processNode_detect_err (cfg : Config)
    (recur : Dir → List Nat → Except Err Unit × List Event)
    (meta : DirMeta) (children : List (ChildMeta × Dir)) (pos : List Nat)
    (e : Err) (tr : List Event)
    (h : detectAndClean pos meta cfg.del_mode = (Except.error e, tr)) :
    processNode cfg recur (Dir.mk meta children) pos =
      (Except.error (Err.cleaning e), Event.visit pos :: tr) := by
  simp [processNode, h]

theorem processNode_ok_read (cfg : Config)
    (recur : Dir → List Nat → Except Err Unit × List Event)
    (meta : DirMeta) (children : List (ChildMeta × Dir)) (pos : List Nat)
    (tr : List Event)
    (h : detectAndClean pos meta cfg.del_mode = (Except.ok (), tr))
    (hr : meta.readDirOk = true) :
    processNode cfg recur (Dir.mk meta children) pos =
      ((runChildren recur cfg pos 0 children).1,
        Event.visit pos :: tr ++ (runChildren recur cfg pos 0 children).2) := by
  simp [processNode, h, hr]

theorem processNode_ok_noread (cfg : Config)
    (recur : Dir → List Nat → Except Err Unit × List Event)
    (meta : DirMeta) (children : List (ChildMeta × Dir)) (pos : List Nat)
    (tr : List Event)
    (h : detectAndClean pos meta cfg.del_mode = (Except.ok (), tr))
    (hr : meta.readDirOk = false) :
    processNode cfg recur (Dir.mk meta children) pos =
      (Except.error (Err.reading Err.readDir), Event.visit pos :: tr) := by
  simp [processNode, h, hr]

theorem visit_self (cfg : Config) (m : Nat) (d : Dir) (q : List Nat) :
    Event.visit q ∈ (processDir cfg (m + 1) d q).2 := by
  obtain ⟨meta, children⟩ := d
  rw [processDir_succ]
  rcases h : detectAndClean q meta cfg.del_mode with ⟨res, tr⟩
  rcases res with e | u
  · rw [processNode_detect_err cfg _ meta children q e tr h]
    simp
  · cases u
    cases hr : meta.readDirOk
    · rw [processNode_ok_noread cfg _ meta children q tr h hr]
      simp
    · rw [processNode_ok_read cfg _ meta children q tr h hr]
      simp

/-! ### More auxiliary lemmas -/

theorem childrenOk_get (l : List (ChildMeta × Dir)) (h : childrenOk l = true) :
    ∀ (m : Nat), ∀ cm : ChildMeta × Dir, l[m]? = some cm → metaOk cm.1 = true := by
  intro m cm hm
  have hmem : cm ∈ l := List.getElem?_mem hm
  exact List.all_eq_true.mp h cm hmem

theorem childrenOk_take_get (l : List (ChildMeta × Dir)) (j : Nat)
    (h : childrenOk (l.take j) = true) :
    ∀ m, m < j → ∀ cm : ChildMeta × Dir, l[m]? = some cm → metaOk cm.1 = true := by
  intro m hm cm hcm
  refine childrenOk_get _ h m cm ?_
  rw [List.getElem?_take]
  simp [hm, hcm]

theorem excludedName_nil (nm : OsName) : excludedName [] nm = false := rfl

theorem excludedName_utf8 (E : List String) (s : String) :
    excludedName E (OsName.utf8 s) = true ↔ ∃ d ∈ E, d.data <:+ s.data := by
  simp [excludedName, OsName.toStr, ends_with, List.any_eq_true]

theorem excludedName_nonUtf8 (E : List String) (t : Nat) :
    excludedName E (OsName.nonUtf8 t) = false := by
  simp [excludedName, OsName.toStr]

theorem runChildren_fst_map_eq (recur₁ recur₂ : Dir → List Nat → Except Err Unit × List Event)
    (cfg : Config) (pos : List Nat) :
    ∀ (l₁ l₂ : List (ChildMeta × Dir)) (i : Nat),
      l₁.map Prod.fst = l₂.map Prod.fst →
      (runChildren recur₁ cfg pos i l₁).1 = (runChildren recur₂ cfg pos i l₂).1 := by
  intro l₁
  induction l₁ with
  | nil =>
    intro l₂ i h
    cases l₂ with
    | nil => rfl
    | cons hd tl => simp at h
  | cons hd tl ih =>
    intro l₂ i h
    cases l₂ with
    | nil => simp at h
    | cons hd₂ tl₂ =>
      obtain ⟨c, sub⟩ := hd
      obtain ⟨c₂, sub₂⟩ := hd₂
      simp at h
      obtain ⟨hc, htl⟩ := h
      subst hc
      cases c with
      | entryErr => rfl
      | fileTypeErr nm => rfl
      | file nm => exact ih tl₂ (i + 1) htl
      | dirEntry nm =>
        rw [runChildren_dirEntry, runChildren_dirEntry]
        split
        · exact ih tl₂ (i + 1) htl
        · simpa using ih tl₂ (i + 1) htl

theorem runChildren_events (recur : Dir → List Nat → Except Err Unit × List Event)
    (cfg : Config) (pos : List Nat) :
    ∀ (l : List (ChildMeta × Dir)) (i : Nat) (ev : Event),
      ev ∈ (runChildren recur cfg pos i l).2 →
      ∃ j, ev = Event.warn (pos ++ [i + j]) ∨
        ∃ nm sub, l[j]? = some (ChildMeta.dirEntry nm, sub) ∧
          excludedName cfg.exclude_dirs nm = false ∧
          ev ∈ (recur sub (pos ++ [i + j])).2 := by
  intro l
  induction l with
  | nil => intro i ev h; simp [runChildren] at h
  | cons hd tl ih =>
    intro i ev h
    obtain ⟨c, sub⟩ := hd
    cases c with
    | entryErr => rw [runChildren_entryErr] at h; simp at h
    | fileTypeErr nm => rw [runChildren_fileTypeErr] at h; simp at h
    | file nm =>
      rw [runChildren_file] at h
      obtain ⟨j, hj⟩ := ih (i + 1) ev h
      refine ⟨j + 1, ?_⟩
      rcases hj with hw | ⟨nm', sub', hj', hex, hmem⟩
      · exact Or.inl (by simpa [Nat.add_assoc, Nat.add_comm 1 j] using hw)
      · exact Or.inr ⟨nm', sub', by simpa using hj', hex,
          by simpa [Nat.add_assoc, Nat.add_comm 1 j] using hmem⟩
    | dirEntry nm =>
      rw [runChildren_dirEntry] at h
      revert h
      split
      · intro h
        obtain ⟨j, hj⟩ := ih (i + 1) ev h
        refine ⟨j + 1, ?_⟩
        rcases hj with hw | ⟨nm', sub', hj', hex, hmem⟩
        · exact Or.inl (by simpa [Nat.add_assoc, Nat.add_comm 1 j] using hw)
        · exact Or.inr ⟨nm', sub', by simpa using hj', hex,
            by simpa [Nat.add_assoc, Nat.add_comm 1 j] using hmem⟩
      · rename_i hexcl
        rw [Bool.not_eq_true] at hexcl
        intro h
        simp only [List.mem_append] at h
        rcases h with (hmem | hwarn) | htail
        · exact ⟨0, Or.inr ⟨nm, sub, by simp, hexcl, by simpa using hmem⟩⟩
        · refine ⟨0, Or.inl ?_⟩
          revert hwarn
          split <;> simp
        · obtain ⟨j, hj⟩ := ih (i + 1) ev htail
          refine ⟨j + 1, ?_⟩
          rcases hj with hw | ⟨nm', sub', hj', hex, hmem⟩
          · exact Or.inl (by simpa [Nat.add_assoc, Nat.add_comm 1 j] using hw)
          · exact Or.inr ⟨nm', sub', by simpa using hj', hex,
              by simpa [Nat.add_assoc, Nat.add_comm 1 j] using hmem⟩

theorem visit_pos_shape (cfg : Config) :
    ∀ (n : Nat) (d : Dir) (pos r : List Nat),
      Event.visit r ∈ (processDir cfg n d pos).2 → ∃ q, r = pos ++ q := by
  intro n
  induction n with
  | zero => intro d pos r h; simp [processDir_zero] at h
  | succ n ih =>
    intro d pos r h
    obtain ⟨meta, children⟩ := d
    rw [processDir_succ] at h
    rcases hd : detectAndClean pos meta cfg.del_mode with ⟨res, tr⟩
    have hnv : Event.visit r ∉ tr := by
      have hv := visit_not_in_detect pos meta cfg.del_mode r
      rw [hd] at hv
      exact hv
    rcases res with e | u
    · rw [processNode_detect_err cfg _ meta children pos e tr hd] at h
      simp at h
      rcases h with h | h
      · exact ⟨[], by simp [h]⟩
      · exact absurd h hnv
    · cases u
      cases hr : meta.readDirOk
      · rw [processNode_ok_noread cfg _ meta children pos tr hd hr] at h
        simp at h
        rcases h with h | h
        · exact ⟨[], by simp [h]⟩
        · exact absurd h hnv
      · rw [processNode_ok_read cfg _ meta children pos tr hd hr] at h
        simp at h
        rcases h with h | h | h
        · exact ⟨[], by simp [h]⟩
        · exact absurd h hnv
        · obtain ⟨j, hj⟩ := runChildren_events _ cfg pos children 0 _ h
          rcases hj with hw | ⟨nm, sub, hj', hex, hmem⟩
          · exact absurd hw (by simp)
          · obtain ⟨q, hq⟩ := ih sub (pos ++ [0 + j]) r hmem
            exact ⟨(0 + j) :: q, by simp [hq]⟩

/-! ### Claim theorems -/

/-- Claim C3: `detect_and_clean` attempts a clean action (announces the
directory and dispatches on the deletion mode) if and only if the directory
directly contains `Cargo.toml` and a `target` subdirectory exists directly in
it; if either condition fails, the step returns success with no side effect,
regardless of the deletion mode. -/
theorem detect_rule (pos : List Nat) (meta : DirMeta) (mode : DeleteMode) :
    (Event.cleaning pos ∈ (detectAndClean pos meta mode).2 ↔ buildRoot meta = true)
    ∧ (buildRoot meta = false → detectAndClean pos meta mode = (Except.ok (), [])) :=
  ⟨cleaning_mem_detect_iff pos meta mode, detectAndClean_not_buildRoot pos meta mode⟩

theorem detect_rule_witness :
    buildRoot plainMeta = false
    ∧ detectAndClean [] plainMeta DeleteMode.all = (Except.ok (), [])
    ∧ Event.cleaning [] ∈ (detectAndClean [] rootMeta DeleteMode.all).2 :=
  ⟨by decide, (detect_rule [] plainMeta DeleteMode.all).2 (by decide),
    ((detect_rule [] rootMeta DeleteMode.all).1).mpr (by decide)⟩

/-- Claim C5: at a detected build root, mode `All` performs exactly one
full-clean invocation; `Partial{doc:=true, release:=false}` one doc-clean and
no release-clean; `Partial{doc:=false, release:=true}` the converse; and
`Partial{doc:=false, release:=false}` performs no invocation and returns
success. -/
theorem mode_dispatch (pos : List Nat) (meta : DirMeta) (h : buildRoot meta = true) :
    invocations (detectAndClean pos meta DeleteMode.all).2 = [(pos, CleanCmd.full)]
    ∧ invocations (detectAndClean pos meta (DeleteMode.part true false)).2 =
        [(pos, CleanCmd.doc)]
    ∧ invocations (detectAndClean pos meta (DeleteMode.part false true)).2 =
        [(pos, CleanCmd.release)]
    ∧ invocations (detectAndClean pos meta (DeleteMode.part false false)).2 = []
    ∧ (detectAndClean pos meta (DeleteMode.part false false)).1 = Except.ok () := by
  obtain ⟨ct, te, td, sa, sd, sr, rd⟩ := meta
  simp [buildRoot] at h
  obtain ⟨⟨h1, h2⟩, h3⟩ := h
  subst h1 h2 h3
  cases sa <;> cases sd <;> cases sr <;> simp [detectAndClean, invocations]

theorem mode_dispatch_witness :
    invocations (detectAndClean [] rootMeta DeleteMode.all).2 = [([], CleanCmd.full)]
    ∧ invocations (detectAndClean [] rootMeta (DeleteMode.part false false)).2 = []
    ∧ (detectAndClean [] rootMeta (DeleteMode.part false false)).1 = Except.ok () :=
  ⟨(mode_dispatch [] rootMeta (by decide)).1,
    (mode_dispatch [] rootMeta (by decide)).2.2.2.1,
    (mode_dispatch [] rootMeta (by decide)).2.2.2.2⟩

/-- Claim C6: `detect_and_clean` returns an error iff one of the spawns it
attempted failed; the spawned tool's exit status is never inspected — the
whole outcome is unchanged under any replacement of the exit codes. -/
theorem spawn_error_policy (pos : List Nat) (meta : DirMeta) (mode : DeleteMode) :
    ((∃ e, (detectAndClean pos meta mode).1 = Except.error e) ↔
      ∃ c, Event.invoke pos c ∈ (detectAndClean pos meta mode).2 ∧
        spawnOf meta c = Except.error ())
    ∧ (∀ a b r : Int,
        detectAndClean pos (withCodes meta a b r) mode = detectAndClean pos meta mode) := by
  obtain ⟨ct, te, td, sa, sd, sr, rd⟩ := meta
  constructor
  · cases ct <;> cases te <;> cases td <;> cases sa <;> cases sd <;> cases sr <;>
      rcases mode with _ | ⟨doc, release⟩ <;> (try (cases doc <;> cases release)) <;>
      simp [detectAndClean, spawnOf]
  · intro a b r
    cases ct <;> cases te <;> cases td <;> cases sa <;> cases sd <;> cases sr <;>
      rcases mode with _ | ⟨doc, release⟩ <;> (try (cases doc <;> cases release)) <;>
      simp [detectAndClean, withCodes, Except.map]

/-- Claim C7: the configuration builder yields `All` exactly when neither flag
is requested; it never yields `Partial{false,false}`, and yields
`Partial{doc,release}` whenever at least one flag is requested. -/
theorem builder_mode :
    buildDelMode false false = DeleteMode.all
    ∧ (∀ doc release : Bool, (doc || release) = true →
        buildDelMode doc release = DeleteMode.part doc release)
    ∧ (∀ doc release : Bool, buildDelMode doc release ≠ DeleteMode.part false false) := by
  refine ⟨rfl, ?_, ?_⟩
  · intro doc release h
    cases doc <;> cases release <;> simp at h <;> rfl
  · intro doc release
    cases doc <;> cases release <;> simp [buildDelMode]

theorem builder_mode_witness :
    (true || false) = true ∧ buildDelMode true false = DeleteMode.part true false :=
  ⟨by decide, builder_mode.2.1 true false (by decide)⟩

/-- Claim C1: in `process_dir`, a failure of a recursive call into a child
subtree never determines the current call's result (the result is invariant
under replacing every child subtree), is reported as a warning, and does not
stop the loop over the remaining siblings; the call succeeds exactly when its
own detection-and-clean step, its own listing, and the per-entry steps
succeed — and a failure of its own step or listing propagates as its own
failure. -/
theorem child_failure_policy (cfg : Config) (n : Nat) (meta : DirMeta)
    (children : List (ChildMeta × Dir)) (pos : List Nat) :
    ((processDir cfg (n + 1) (Dir.mk meta children) pos).1 = Except.ok () ↔
      ((detectAndClean pos meta cfg.del_mode).1 = Except.ok () ∧
        meta.readDirOk = true ∧ childrenOk children = true))
    ∧ (∀ children₂ : List (ChildMeta × Dir),
        children.map Prod.fst = children₂.map Prod.fst →
        (processDir cfg (n + 1) (Dir.mk meta children) pos).1 =
          (processDir cfg (n + 1) (Dir.mk meta children₂) pos).1)
    ∧ (∀ (j : Nat) (nm : OsName) (sub : Dir) (e : Err),
        (detectAndClean pos meta cfg.del_mode).1 = Except.ok () →
        meta.readDirOk = true →
        childrenOk children = true →
        children[j]? = some (ChildMeta.dirEntry nm, sub) →
        excludedName cfg.exclude_dirs nm = false →
        (processDir cfg n sub (pos ++ [j])).1 = Except.error e →
        Event.warn (pos ++ [j]) ∈ (processDir cfg (n + 1) (Dir.mk meta children) pos).2)
    ∧ (∀ (j k m : Nat) (nm₂ : OsName) (sub₂ : Dir),
        n = m + 1 → j < k →
        (detectAndClean pos meta cfg.del_mode).1 = Except.ok () →
        meta.readDirOk = true →
        childrenOk children = true →
        (∃ nm sub e, children[j]? = some (ChildMeta.dirEntry nm, sub) ∧
          excludedName cfg.exclude_dirs nm = false ∧
          (processDir cfg n sub (pos ++ [j])).1 = Except.error e) →
        children[k]? = some (ChildMeta.dirEntry nm₂, sub₂) →
        excludedName cfg.exclude_dirs nm₂ = false →
        Event.visit (pos ++ [k]) ∈ (processDir cfg (n + 1) (Dir.mk meta children) pos).2) := by
  rcases hd : detectAndClean pos meta cfg.del_mode with ⟨res, tr⟩
  have hd1 : (detectAndClean pos meta cfg.del_mode).1 = res := by rw [hd]
  rcases res with e | u
  · -- own detection-and-clean step failed: everything propagates
    refine ⟨?_, ?_, ?_, ?_⟩
    · rw [processDir_succ, processNode_detect_err cfg _ meta children pos e tr hd]
      simp [hd1]
    · intro children₂ hmap
      rw [processDir_succ, processNode_detect_err cfg _ meta children pos e tr hd,
        processDir_succ, processNode_detect_err cfg _ meta children₂ pos e tr hd]
    · intro j nm sub e' hdok _ _ _ _ _
      exact absurd hdok (by simp)
    · intro j k m nm₂ sub₂ _ _ hdok _ _ _ _ _
      exact absurd hdok (by simp)
  · cases u
    cases hr : meta.readDirOk with
    | false =>
      -- own listing failed: everything propagates
      refine ⟨?_, ?_, ?_, ?_⟩
      · rw [processDir_succ, processNode_ok_noread cfg _ meta children pos tr hd hr]
        simp [hr]
      · intro children₂ hmap
        rw [processDir_succ, processNode_ok_noread cfg _ meta children pos tr hd hr,
          processDir_succ, processNode_ok_noread cfg _ meta children₂ pos tr hd hr]
      · intro j nm sub e' _ hrd _ _ _ _
        simp [hr] at hrd
      · intro j k m nm₂ sub₂ _ _ _ hrd _ _ _ _
        simp [hr] at hrd
    | true =>
      refine ⟨?_, ?_, ?_, ?_⟩
      · rw [processDir_succ, processNode_ok_read cfg _ meta children pos tr hd hr]
        simp only [hd1, hr]
        simp [runChildren_fst_ok_iff]
      · intro children₂ hmap
        rw [processDir_succ, processNode_ok_read cfg _ meta children pos tr hd hr,
          processDir_succ, processNode_ok_read cfg _ meta children₂ pos tr hd hr]
        exact runChildren_fst_map_eq _ _ cfg pos children children₂ 0 hmap
      · intro j nm sub e' _ _ hok hj hex herr
        rw [processDir_succ, processNode_ok_read cfg _ meta children pos tr hd hr]
        refine List.mem_cons_of_mem _ (List.mem_append_right tr ?_)
        have := runChildren_warn_mem (fun s q => processDir cfg n s q) cfg pos children 0 j
          nm sub e' (fun m hm cm hcm => childrenOk_get children hok m cm hcm)
          (by simpa using hj) hex (by simpa using herr)
        simpa using this
      · intro j k m nm₂ sub₂ hn hjk _ _ hok hfail hk hex₂
        rw [processDir_succ, processNode_ok_read cfg _ meta children pos tr hd hr]
        refine List.mem_cons_of_mem _ (List.mem_append_right tr ?_)
        subst hn
        have hv : Event.visit (pos ++ [k]) ∈
            (processDir cfg (m + 1) sub₂ (pos ++ [0 + k])).2 := by
          simpa using visit_self cfg m sub₂ (pos ++ [k])
        have := runChildren_mem_of_child (fun s q => processDir cfg (m + 1) s q) cfg pos
          children 0 k nm₂ sub₂ (Event.visit (pos ++ [k]))
          (fun m' hm' cm hcm => childrenOk_get children hok m' cm hcm)
          (by simpa using hk) hex₂ hv
        simpa using this

theorem child_failure_policy_witness :
    Event.warn [0] ∈ (processDir cfgAll 2 (Dir.mk plainMeta mixedChildren) []).2
    ∧ Event.visit [1] ∈ (processDir cfgAll 2 (Dir.mk plainMeta mixedChildren) []).2
    ∧ (processDir cfgAll 2 (Dir.mk plainMeta mixedChildren) []).1 = Except.ok () := by
  refine ⟨?_, ?_, ?_⟩
  · have h := (child_failure_policy cfgAll 1 plainMeta mixedChildren []).2.2.1 0
      (OsName.utf8 "a") badReadDir (Err.reading Err.readDir)
      (by decide) (by decide) (by decide) (by rfl) (by decide) (by decide)
    simpa using h
  · have h := (child_failure_policy cfgAll 1 plainMeta mixedChildren []).2.2.2 0 1 0
      (OsName.utf8 "b") leafDir rfl (by decide) (by decide) (by decide) (by decide)
      ⟨OsName.utf8 "a", badReadDir, Err.reading Err.readDir, by rfl, by decide, by decide⟩
      (by rfl) (by decide)
    simpa using h
  · exact (child_failure_policy cfgAll 1 plainMeta mixedChildren []).1.mpr
      ⟨by decide, by decide, by decide⟩

/-- Claim C10: if, partway through iterating a node's children, obtaining an
individual entry or its file type fails, that error becomes the current
call's own result; the node's own detection-and-clean step has already run,
and the (unexcluded directory) children iterated before the failing entry
have already been recursed into — the walk of one node is not atomic. -/
theorem entry_error_propagation (cfg : Config) (n : Nat) (meta : DirMeta)
    (children : List (ChildMeta × Dir)) (pos : List Nat) (j : Nat)
    (c : ChildMeta) (sub : Dir) (tr : List Event)
    (hdet : detectAndClean pos meta cfg.del_mode = (Except.ok (), tr))
    (hrd : meta.readDirOk = true)
    (hpre : childrenOk (children.take j) = true)
    (hj : children[j]? = some (c, sub))
    (hbad : metaOk c = false) :
    (processDir cfg (n + 1) (Dir.mk meta children) pos).1 = Except.error (errOfBad c)
    ∧ Event.visit pos ∈ (processDir cfg (n + 1) (Dir.mk meta children) pos).2
    ∧ (∀ (k m : Nat) (nm₂ : OsName) (sub₂ : Dir),
        n = m + 1 → k < j →
        children[k]? = some (ChildMeta.dirEntry nm₂, sub₂) →
        excludedName cfg.exclude_dirs nm₂ = false →
        Event.visit (pos ++ [k]) ∈ (processDir cfg (n + 1) (Dir.mk meta children) pos).2) := by
  have hpre' := childrenOk_take_get children j hpre
  refine ⟨?_, ?_, ?_⟩
  · rw [processDir_succ, processNode_ok_read cfg _ meta children pos tr hdet hrd]
    exact runChildren_firstBad _ cfg pos children 0 j c sub hpre' hj hbad
  · rw [processDir_succ, processNode_ok_read cfg _ meta children pos tr hdet hrd]
    exact List.mem_cons_self _ _
  · intro k m nm₂ sub₂ hn hkj hk hex₂
    rw [processDir_succ, processNode_ok_read cfg _ meta children pos tr hdet hrd]
    refine List.mem_cons_of_mem _ (List.mem_append_right tr ?_)
    subst hn
    have hv : Event.visit (pos ++ [k]) ∈
        (processDir cfg (m + 1) sub₂ (pos ++ [0 + k])).2 := by
      simpa using visit_self cfg m sub₂ (pos ++ [k])
    have := runChildren_mem_of_child (fun s q => processDir cfg (m + 1) s q) cfg pos
      children 0 k nm₂ sub₂ (Event.visit (pos ++ [k]))
      (fun m' hm' cm hcm => hpre' m' (Nat.lt_trans hm' hkj) cm hcm)
      (by simpa using hk) hex₂ hv
    simpa using this

theorem entry_error_propagation_witness :
    (processDir cfgAll 2 (Dir.mk plainMeta entryErrChildren) []).1 =
      Except.error Err.entryGet
    ∧ Event.visit [] ∈ (processDir cfgAll 2 (Dir.mk plainMeta entryErrChildren) []).2
    ∧ Event.visit [0] ∈ (processDir cfgAll 2 (Dir.mk plainMeta entryErrChildren) []).2 := by
  have h := entry_error_propagation cfgAll 1 plainMeta entryErrChildren [] 1
    ChildMeta.entryErr leafDir [] (by decide) (by decide) (by decide) (by rfl) (by decide)
  refine ⟨h.1, h.2.1, ?_⟩
  have h2 := h.2.2 0 0 (OsName.utf8 "a") leafDir rfl (by decide) (by rfl) (by decide)
  simpa using h2

/-- Claim C4: during the walk, a child directory is recursed into (and hence
visited) iff no member of the exclusion set is a suffix of its basename; and
the root of a call is always visited (when the budget allows), whatever the
exclusion set — the root is never subject to exclusion matching. -/
theorem exclusion_rule (cfg : Config) (n : Nat) (meta : DirMeta)
    (children : List (ChildMeta × Dir)) (pos : List Nat) (j : Nat) (s : String)
    (sub : Dir) (tr : List Event)
    (hok : childrenOk children = true)
    (hdet : detectAndClean pos meta cfg.del_mode = (Except.ok (), tr))
    (hrd : meta.readDirOk = true)
    (hj : children[j]? = some (ChildMeta.dirEntry (OsName.utf8 s), sub)) :
    (Event.visit (pos ++ [j]) ∈ (processDir cfg (n + 2) (Dir.mk meta children) pos).2
      ↔ ¬ ∃ d ∈ cfg.exclude_dirs, d.data <:+ s.data)
    ∧ (∀ (cfg' : Config) (k : Nat) (d : Dir),
        Event.visit pos ∈ (processDir cfg' (k + 1) d pos).2) := by
  constructor
  · rw [processDir_succ, processNode_ok_read cfg _ meta children pos tr hdet hrd]
    have hnv : Event.visit (pos ++ [j]) ∉ tr := by
      have hv := visit_not_in_detect pos meta cfg.del_mode (pos ++ [j])
      rw [hdet] at hv
      exact hv
    rw [← excludedName_utf8 cfg.exclude_dirs s]
    constructor
    · intro hmem
      rcases List.mem_cons.mp hmem with heq | hmem2
      · simp at heq
      · rcases List.mem_append.mp hmem2 with h2 | h2
        · exact absurd h2 hnv
        · obtain ⟨k, nm', sub', hk, hex, hmem3⟩ :=
            (runChildren_visit_mem _ cfg pos children 0 (pos ++ [j]) hok).mp h2
          obtain ⟨q, hq⟩ :=
            visit_pos_shape cfg (n + 1) sub' (pos ++ [0 + k]) (pos ++ [j]) hmem3
          rw [List.append_assoc] at hq
          have hjk : [j] = [0 + k] ++ q := List.append_cancel_left hq
          have hq0 : q = [] := by
            have hlen := congrArg List.length hjk
            simp at hlen
            exact hlen
          subst hq0
          simp at hjk
          subst hjk
          rw [hj] at hk
          simp at hk
          obtain ⟨hnm, hsub⟩ := hk
          rw [← hnm] at hex
          simp [hex]
    · intro hnex
      have hfalse : excludedName cfg.exclude_dirs (OsName.utf8 s) = false := by
        cases hcc : excludedName cfg.exclude_dirs (OsName.utf8 s) with
        | false => rfl
        | true => exact absurd hcc hnex
      refine List.mem_cons_of_mem _ (List.mem_append_right tr ?_)
      have hv : Event.visit (pos ++ [j]) ∈
          (processDir cfg (n + 1) sub (pos ++ [0 + j])).2 := by
        simpa using visit_self cfg n sub (pos ++ [j])
      have := (runChildren_visit_mem (fun s' q' => processDir cfg (n + 1) s' q') cfg pos
        children 0 (pos ++ [j]) hok).mpr ⟨j, OsName.utf8 s, sub, hj, hfalse, hv⟩
      simpa using this
  · intro cfg' k d
    exact visit_self cfg' k d pos

theorem exclusion_rule_witness :
    Event.visit [0] ∉ (processDir cfgExcl 2 (Dir.mk plainMeta exclChildren) []).2 := by
  intro hmem
  have h := (exclusion_rule cfgExcl 0 plainMeta exclChildren [] 0 "build" leafRoot []
    (by decide) (by decide) (by decide) (by rfl)).1
  exact (h.mp hmem) ⟨"build", by decide, by decide⟩

/-- Claim C9: a child directory whose basename is not valid UTF-8 is never
matched by the exclusion set — the suffix test is false whenever the name
cannot be converted to a string — so the child is recursed into regardless of
the exclusion set. -/
theorem nonUtf8_never_excluded (cfg : Config) (n : Nat) (meta : DirMeta)
    (children : List (ChildMeta × Dir)) (pos : List Nat) (j : Nat) (t : Nat)
    (sub : Dir) (tr : List Event)
    (hok : childrenOk children = true)
    (hdet : detectAndClean pos meta cfg.del_mode = (Except.ok (), tr))
    (hrd : meta.readDirOk = true)
    (hj : children[j]? = some (ChildMeta.dirEntry (OsName.nonUtf8 t), sub)) :
    excludedName cfg.exclude_dirs (OsName.nonUtf8 t) = false
    ∧ Event.visit (pos ++ [j]) ∈ (processDir cfg (n + 2) (Dir.mk meta children) pos).2 := by
  refine ⟨excludedName_nonUtf8 _ t, ?_⟩
  rw [processDir_succ, processNode_ok_read cfg _ meta children pos tr hdet hrd]
  refine List.mem_cons_of_mem _ (List.mem_append_right tr ?_)
  have hv : Event.visit (pos ++ [j]) ∈
      (processDir cfg (n + 1) sub (pos ++ [0 + j])).2 := by
    simpa using visit_self cfg n sub (pos ++ [j])
  have := (runChildren_visit_mem (fun s' q' => processDir cfg (n + 1) s' q') cfg pos
    children 0 (pos ++ [j]) hok).mpr
    ⟨j, OsName.nonUtf8 t, sub, hj, excludedName_nonUtf8 _ t, hv⟩
  simpa using this

theorem nonUtf8_never_excluded_witness :
    Event.visit [0] ∈ (processDir cfgExcl 2 (Dir.mk plainMeta nonUtf8Children) []).2 :=
  (nonUtf8_never_excluded cfgExcl 0 plainMeta nonUtf8Children [] 0 0 leafDir []
    (by decide) (by decide) (by decide) (by rfl)).2

/-! ### Depth characterization -/

theorem getSub_nil (d : Dir) : getSub [] d = some d := rfl

theorem getSub_cons (j : Nat) (q : List Nat) (meta : DirMeta)
    (children : List (ChildMeta × Dir)) :
    getSub (j :: q) (Dir.mk meta children) =
      match children[j]? with
      | some (ChildMeta.dirEntry _, sub) => getSub q sub
      | _ => none := rfl

theorem errorFree_mk (meta : DirMeta) (children : List (ChildMeta × Dir)) :
    errorFree (Dir.mk meta children) =
      (meta.readDirOk && spawnOk meta && errorFreeList children) := by
  simp [errorFree]

theorem errorFreeList_get :
    ∀ l : List (ChildMeta × Dir), errorFreeList l = true →
      childrenOk l = true ∧
        ∀ (j : Nat) (cm : ChildMeta × Dir), l[j]? = some cm → errorFree cm.2 = true := by
  intro l
  induction l with
  | nil =>
    intro _
    exact ⟨rfl, by intro j cm h2; simp at h2⟩
  | cons hd tl ih =>
    intro h
    obtain ⟨c, sub⟩ := hd
    have hexp : errorFreeList ((c, sub) :: tl) =
        (metaOk c && errorFree sub && errorFreeList tl) := by
      simp [errorFreeList]
    rw [hexp] at h
    obtain ⟨h12, htl⟩ := Bool.and_eq_true_iff.mp h
    obtain ⟨hc, hsub⟩ := Bool.and_eq_true_iff.mp h12
    obtain ⟨hoktl, hgettl⟩ := ih htl
    refine ⟨?_, ?_⟩
    · rw [childrenOk_cons, hc, hoktl]
      rfl
    · intro j cm hj
      cases j with
      | zero =>
        simp at hj
        rw [← hj]
        exact hsub
      | succ j =>
        exact hgettl j cm (by simpa using hj)

theorem visit_mem_iff (cfg : Config) (hE : cfg.exclude_dirs = []) :
    ∀ (n : Nat) (d : Dir) (pos r : List Nat), errorFree d = true →
      (Event.visit r ∈ (processDir cfg n d pos).2 ↔
        ∃ q sub, r = pos ++ q ∧ getSub q d = some sub ∧ q.length < n) := by
  intro n
  induction n with
  | zero =>
    intro d pos r _
    simp [processDir_zero]
  | succ n ih =>
    intro d pos r hF
    obtain ⟨meta, children⟩ := d
    rw [errorFree_mk] at hF
    obtain ⟨h12, hlist⟩ := Bool.and_eq_true_iff.mp hF
    obtain ⟨hrd, hsp⟩ := Bool.and_eq_true_iff.mp h12
    obtain ⟨hokl, hsubF⟩ := errorFreeList_get children hlist
    have hdet1 : (detectAndClean pos meta cfg.del_mode).1 = Except.ok () :=
      detectAndClean_ok_of_spawnOk pos meta cfg.del_mode hsp
    rcases hd : detectAndClean pos meta cfg.del_mode with ⟨res, tr⟩
    have hres : res = Except.ok () := by rw [hd] at hdet1; exact hdet1
    subst hres
    have hnv : Event.visit r ∉ tr := by
      have hv := visit_not_in_detect pos meta cfg.del_mode r
      rw [hd] at hv
      exact hv
    rw [processDir_succ, processNode_ok_read cfg _ meta children pos tr hd hrd]
    constructor
    · intro hmem
      rcases List.mem_cons.mp hmem with heq | hmem2
      · simp at heq
        exact ⟨[], Dir.mk meta children, by simp [heq], rfl, Nat.succ_pos n⟩
      · rcases List.mem_append.mp hmem2 with h2 | h2
        · exact absurd h2 hnv
        · obtain ⟨k, nm', sub', hk, hex, hmem3⟩ :=
            (runChildren_visit_mem _ cfg pos children 0 r hokl).mp h2
          have hsubF' : errorFree sub' = true := hsubF k (ChildMeta.dirEntry nm', sub') hk
          obtain ⟨q, sub'', hr, hget, hlen⟩ := (ih sub' (pos ++ [0 + k]) r hsubF').mp hmem3
          rw [Nat.zero_add] at hr
          refine ⟨k :: q, sub'', ?_, ?_, Nat.succ_lt_succ hlen⟩
          · rw [hr, List.append_assoc]
            rfl
          · rw [getSub_cons, hk]
            exact hget
    · rintro ⟨q, sub'', hr, hget, hlen⟩
      cases q with
      | nil =>
        rw [List.append_nil] at hr
        subst hr
        exact List.mem_cons_self _ _
      | cons k q' =>
        rw [getSub_cons] at hget
        rcases hck : children[k]? with _ | cm
        · rw [hck] at hget
          simp at hget
        · obtain ⟨cmeta, csub⟩ := cm
          cases cmeta with
          | entryErr =>
            rw [hck] at hget
            simp at hget
          | fileTypeErr nm' =>
            rw [hck] at hget
            simp at hget
          | file nm' =>
            rw [hck] at hget
            simp at hget
          | dirEntry nm' =>
            rw [hck] at hget
            simp only at hget
            refine List.mem_cons_of_mem _ (List.mem_append_right tr ?_)
            refine (runChildren_visit_mem _ cfg pos children 0 r hokl).mpr
              ⟨k, nm', csub, hck, by rw [hE]; rfl, ?_⟩
            refine (ih csub (pos ++ [0 + k]) r (hsubF k _ hck)).mpr
              ⟨q', sub'', ?_, hget, Nat.lt_of_succ_lt_succ hlen⟩
            rw [hr]
            simp

/-- Claim C2: with no exclusions and an error-free tree, a directory at depth
`d` below the root is visited (its detection-and-clean step runs) iff
`d < initial_budget`; in particular a call with budget `0` returns success
immediately, with no detection-and-clean step on the node itself. -/
theorem depth_budget_rule (cfg : Config) (hE : cfg.exclude_dirs = [])
    (d : Dir) (hF : errorFree d = true) (budget : Nat) (p : List Nat) (sub : Dir)
    (hp : getSub p d = some sub) :
    (Event.visit p ∈ (processDir cfg budget d []).2 ↔ p.length < budget)
    ∧ (∀ (d' : Dir) (pos : List Nat), processDir cfg 0 d' pos = (Except.ok (), [])) := by
  constructor
  · rw [visit_mem_iff cfg hE budget d [] p hF]
    constructor
    · rintro ⟨q, sub', hr, hget, hlen⟩
      simp at hr
      subst hr
      exact hlen
    · intro hlen
      exact ⟨p, sub, by simp, hp, hlen⟩
  · intro d' pos
    rfl

theorem depth_budget_rule_witness :
    Event.visit [0] ∈ (processDir cfgAll 2 (Dir.mk plainMeta depthChildren) []).2
    ∧ Event.visit [0] ∉ (processDir cfgAll 1 (Dir.mk plainMeta depthChildren) []).2 := by
  constructor
  · exact (depth_budget_rule cfgAll rfl (Dir.mk plainMeta depthChildren) (by decide) 2 [0]
      leafDir (by rfl)).1.mpr (by decide)
  · intro h
    have := (depth_budget_rule cfgAll rfl (Dir.mk plainMeta depthChildren) (by decide) 1 [0]
      leafDir (by rfl)).1.mp h
    simp at this

/-! ### No-op scans -/

theorem ioClean_mk (meta : DirMeta) (children : List (ChildMeta × Dir)) :
    ioClean (Dir.mk meta children) = (meta.readDirOk && ioCleanList children) := by
  simp [ioClean]

theorem ioCleanList_get :
    ∀ l : List (ChildMeta × Dir), ioCleanList l = true →
      childrenOk l = true ∧
        ∀ (j : Nat) (cm : ChildMeta × Dir), l[j]? = some cm → ioClean cm.2 = true := by
  intro l
  induction l with
  | nil =>
    intro _
    exact ⟨rfl, by intro j cm h2; simp at h2⟩
  | cons hd tl ih =>
    intro h
    obtain ⟨c, sub⟩ := hd
    have hexp : ioCleanList ((c, sub) :: tl) =
        (metaOk c && ioClean sub && ioCleanList tl) := by
      simp [ioCleanList]
    rw [hexp] at h
    obtain ⟨h12, htl⟩ := Bool.and_eq_true_iff.mp h
    obtain ⟨hc, hsub⟩ := Bool.and_eq_true_iff.mp h12
    obtain ⟨hoktl, hgettl⟩ := ih htl
    refine ⟨?_, ?_⟩
    · rw [childrenOk_cons, hc, hoktl]
      rfl
    · intro j cm hj
      cases j with
      | zero =>
        simp at hj
        rw [← hj]
        exact hsub
      | succ j =>
        exact hgettl j cm (by simpa using hj)

theorem noBuildRoot_mk (meta : DirMeta) (children : List (ChildMeta × Dir)) :
    noBuildRoot (Dir.mk meta children) = (!buildRoot meta && noBuildRootList children) := by
  simp [noBuildRoot]

theorem noBuildRootList_get :
    ∀ l : List (ChildMeta × Dir), noBuildRootList l = true →
      ∀ (j : Nat) (cm : ChildMeta × Dir), l[j]? = some cm → noBuildRoot cm.2 = true := by
  intro l
  induction l with
  | nil =>
    intro _ j cm h2
    simp at h2
  | cons hd tl ih =>
    intro h j cm hj
    obtain ⟨c, sub⟩ := hd
    have hexp : noBuildRootList ((c, sub) :: tl) =
        (noBuildRoot sub && noBuildRootList tl) := by
      simp [noBuildRootList]
    rw [hexp] at h
    obtain ⟨hsub, htl⟩ := Bool.and_eq_true_iff.mp h
    cases j with
    | zero =>
      simp at hj
      rw [← hj]
      exact hsub
    | succ j =>
      exact ih htl j cm (by simpa using hj)

theorem invocations_eq_nil (tr : List Event) :
    invocations tr = [] ↔ ∀ (p : List Nat) (c : CleanCmd), Event.invoke p c ∉ tr := by
  rw [invocations, List.filterMap_eq_nil_iff]
  constructor
  · intro h p c hmem
    have := h _ hmem
    simp at this
  · intro h e hmem
    cases e with
    | invoke p c => exact absurd hmem (h p c)
    | visit p => rfl
    | cleaning p => rfl
    | warn p => rfl

theorem scan_noop (cfg : Config) :
    ∀ (n : Nat) (d : Dir) (pos : List Nat), ioClean d = true → noBuildRoot d = true →
      (processDir cfg n d pos).1 = Except.ok () ∧
        (∀ (p : List Nat) (c : CleanCmd), Event.invoke p c ∉ (processDir cfg n d pos).2) := by
  intro n
  induction n with
  | zero =>
    intro d pos _ _
    exact ⟨rfl, by intro p c h; simp [processDir_zero] at h⟩
  | succ n ih =>
    intro d pos hio hnb
    obtain ⟨meta, children⟩ := d
    rw [ioClean_mk] at hio
    obtain ⟨hrd, hlist⟩ := Bool.and_eq_true_iff.mp hio
    rw [noBuildRoot_mk] at hnb
    obtain ⟨hbr, hnbl⟩ := Bool.and_eq_true_iff.mp hnb
    have hbr' : buildRoot meta = false := by
      simpa using hbr
    have hdet := detectAndClean_not_buildRoot pos meta cfg.del_mode hbr'
    obtain ⟨hokl, hsubio⟩ := ioCleanList_get children hlist
    rw [processDir_succ, processNode_ok_read cfg _ meta children pos [] hdet hrd]
    constructor
    · rw [runChildren_fst_ok_iff]
      exact hokl
    · intro p c hmemIn
      rcases List.mem_cons.mp hmemIn with heq | hmem2
      · simp at heq
      · rcases List.mem_append.mp hmem2 with h2 | h2
        · simp at h2
        · obtain ⟨j, hj⟩ := runChildren_events _ cfg pos children 0 _ h2
          rcases hj with hw | ⟨nm, sub, hj', hex, hmemc⟩
          · simp at hw
          · exact absurd hmemc
              ((ih sub (pos ++ [0 + j]) (hsubio j _ hj')
                (noBuildRootList_get children hnbl j _ hj')).2 p c)

/-- Claim C8: over a tree with no build root, a scan performs zero clean
invocations and returns success; and since the run had no side effect the
tree is unchanged, so the second run — on that same tree — again performs
zero invocations and returns success. -/
theorem scan_idempotent_noop (cfg : Config) (depth : Nat) (d : Dir)
    (hio : ioClean d = true) (hnb : noBuildRoot d = true) :
    ((runScan cfg depth d).1 = Except.ok () ∧ invocations (runScan cfg depth d).2 = [])
    ∧ (∀ d₂ : Dir, invocations (runScan cfg depth d).2 = [] → d₂ = d →
        (runScan cfg depth d₂).1 = Except.ok () ∧
          invocations (runScan cfg depth d₂).2 = []) := by
  have h := scan_noop cfg depth d [] hio hnb
  have hinv : invocations (processDir cfg depth d []).2 = [] :=
    (invocations_eq_nil _).mpr h.2
  refine ⟨⟨h.1, hinv⟩, ?_⟩
  intro d₂ _ heq
  subst heq
  exact ⟨h.1, hinv⟩

theorem scan_idempotent_noop_witness :
    ((runScan cfgAll 64 noRootTree).1 = Except.ok ()
      ∧ invocations (runScan cfgAll 64 noRootTree).2 = [])
    ∧ ((runScan cfgAll 64 noRootTree).1 = Except.ok ()
      ∧ invocations (runScan cfgAll 64 noRootTree).2 = []) :=
  ⟨(scan_idempotent_noop cfgAll 64 noRootTree (by decide) (by decide)).1,
    (scan_idempotent_noop cfgAll 64 noRootTree (by decide) (by decide)).2 noRootTree
      (by decide) rfl⟩

end CargoCleanRecursive
